import Mathlib

/-!
Verification of the barrier library in `src/ck_barrier.c`.

The C file implements five thread barriers (centralized, combining tree,
dissemination, tournament, MCS tree).  This development gives a shallow
embedding of the topology-initialization functions and of a sequential,
single-thread execution of each `wait` operation:

* all machine words (`unsigned int`) are modelled as `Nat` with explicit
  reduction modulo `2^32` wherever the C arithmetic can wrap
  (`~x`, `x - 1` on unsigned operands, the `faa` counter, the shifted
  index expressions of `ck_barrier_mcs_init`, the bit-smear of
  `ck_barrier_internal_power_2`);
* caller-allocated arrays become total functions from indices to records,
  updated with `Function.update`; pointers into those arrays become
  explicit address values (inductive types of slot names);
* a spin loop (`while (flag != sense) stall;`) is modelled by a single
  test: in a sequential execution the observed word never changes, so the
  loop either exits at once or spins forever.  A wait operation therefore
  returns `Option`: `some` is a completed call, `none` means the caller
  would spin forever (or, for the instrumented tournament wait, read out
  of the declared bounds);
* the recursive arrival of the combining tree and the round loops of the
  tournament wait are given fuel; the concrete scenarios proved below use
  enough fuel that the result is exact.
-/

/-! ## Unsigned 32-bit arithmetic helpers -/

/-- Reduction of a natural number to an unsigned 32-bit value. -/
def u32 (x : Nat) : Nat := x % 2 ^ 32

/-- Bitwise complement `~x` on an unsigned 32-bit word. -/
def not32 (x : Nat) : Nat := 2 ^ 32 - 1 - x % 2 ^ 32

/-- Unsigned 32-bit subtraction `a - b` (wrapping, as in C). -/
def usub32 (a b : Nat) : Nat := (a + (2 ^ 32 - b % 2 ^ 32)) % 2 ^ 32

/-! ## Shared helpers of the C file

`ck_barrier_internal_log` (integer log2 of a power of two, bit-group OR
algorithm) and `ck_barrier_internal_power_2` (next power of two, bit
smear), translated from lines 41-70 of `ck_barrier.c`. -/

/-- Source: `ck_barrier_internal_log`.  `r = (v & b[0]) != 0;` then
`for (i = 4; i > 0; i--) r |= ((v & b[i]) != 0) << i;` over the mask table
`b = [0xAAAAAAAA, 0xCCCCCCCC, 0xF0F0F0F0, 0xFF00FF00, 0xFFFF0000]`. -/
def ck_barrier_internal_log (v : Nat) : Nat :=
  let b : List Nat := [0xAAAAAAAA, 0xCCCCCCCC, 0xF0F0F0F0, 0xFF00FF00, 0xFFFF0000]
  let r : Nat := if v &&& (b.getD 0 0) ≠ 0 then 1 else 0
  List.foldl (fun r i => r ||| ((if v &&& (b.getD i 0) ≠ 0 then 1 else 0) <<< i)) r [4, 3, 2, 1]

/-- One `v |= v >> k` statement of the bit smear. -/
def smearStep (y k : Nat) : Nat := y ||| (y >>> k)

/-- The five `v |= v >> k` statements of `ck_barrier_internal_power_2`. -/
def smear (x : Nat) : Nat :=
  smearStep (smearStep (smearStep (smearStep (smearStep x 1) 2) 4) 8) 16

/-- Source: `ck_barrier_internal_power_2`: `--v` (wrapping on unsigned),
five or-shift statements, `++v` (wrapping). -/
def ck_barrier_internal_power_2 (v : Nat) : Nat :=
  (smear ((v + (2 ^ 32 - 1)) % 2 ^ 32) + 1) % 2 ^ 32

/-- Source: `ck_barrier_dissemination_size` returns
`log(power_2(nthr)) * 2`. -/
def ck_barrier_dissemination_size (nthr : Nat) : Nat :=
  ck_barrier_internal_log (ck_barrier_internal_power_2 nthr) * 2

/-- Source: `ck_barrier_tournament_size` returns
`log(power_2(nthr)) + 1`. -/
def ck_barrier_tournament_size (nthr : Nat) : Nat :=
  ck_barrier_internal_log (ck_barrier_internal_power_2 nthr) + 1

/-! ## Generic loop-of-stores helpers

The topology-init functions of the C file are loops whose bodies store
into one array slot per iteration, reading (at most) that same slot.
They are embedded as `List.foldl` over `List.range`, and the two lemmas
below characterize the table that such a loop produces. -/

/-- A loop `for (i = 0; i < n; ++i) a[i] = g(i, a[i]);` over an array
modelled as a total function. -/
def arrInit {V : Type} (g : Nat → V → V) (n : Nat) (t : Nat → V) : Nat → V :=
  (List.range n).foldl (fun t i => Function.update t i (g i (t i))) t

/-- A doubly nested loop `for (i = 0; i < n; ++i) for (k = 0; k < m; ++k)
t[i][k] = g(i, k, t[i][k]);` over a table modelled as a total function on
pairs. -/
def tableInit {V : Type} (g : Nat → Nat → V → V) (n m : Nat) (t : Nat × Nat → V) :
    Nat × Nat → V :=
  (List.range n).foldl
    (fun t i =>
      (List.range m).foldl (fun t k => Function.update t (i, k) (g i k (t (i, k)))) t) t

/-- Inner loop of `tableInit` for a fixed row `i`. -/
def tableInitRow {V : Type} (g : Nat → Nat → V → V) (i m : Nat) (t : Nat × Nat → V) :
    Nat × Nat → V :=
  (List.range m).foldl (fun t k => Function.update t (i, k) (g i k (t (i, k)))) t

/-! ## Centralized barrier (`ck_barrier_centralized`, lines 72-91)

Shared state is a counter and a sense word; the thread state is the
expected sense.  The spin `while (sense != ck_pr_load_uint(...))` is
modelled by the final test: in a sequential execution the shared sense
cannot change, so the call completes exactly when the test succeeds at
once. -/

structure CkBarrierCentralized where
  value : Nat
  sense : Nat
deriving DecidableEq

structure CkBarrierCentralizedState where
  sense : Nat
deriving DecidableEq

/-- Modelled from the spec: the centralized per-thread state initializer
(`CK_BARRIER_CENTRALIZED_STATE_INITIALIZER`, declared in the header,
which is not part of `src/`) sets the thread's expected sense to 0. -/
def ck_barrier_centralized_state_init : CkBarrierCentralizedState := { sense := 0 }

/-- Modelled from the spec: the centralized barrier initializer
(`CK_BARRIER_CENTRALIZED_INITIALIZER`, declared in the header, which is
not part of `src/`) sets shared count and sense to 0. -/
def ck_barrier_centralized_init : CkBarrierCentralized := { value := 0, sense := 0 }

/-- Source: `ck_barrier_centralized`.  `sense = state->sense = ~state->sense;
value = ck_pr_faa_uint(&barrier->value, 1); if (value == n_threads - 1)
{ store value 0; store sense; return; } while (sense != load(sense)) stall;`. -/
def ck_barrier_centralized (b : CkBarrierCentralized) (st : CkBarrierCentralizedState)
    (n_threads : Nat) : Option (CkBarrierCentralized × CkBarrierCentralizedState) :=
  let sense := not32 st.sense
  let st := { sense := sense : CkBarrierCentralizedState }
  let value := b.value
  let b := { b with value := (b.value + 1) % 2 ^ 32 }
  if value = (n_threads + (2 ^ 32 - 1)) % 2 ^ 32 then
    some ({ value := 0, sense := sense }, st)
  else if sense = b.sense then some (b, st) else none

/-! ## Dissemination barrier (lines 270-358)

Each thread owns `2 * size` flag slots (two parity rows of `size`
rounds).  The model keeps, for every pair `(i, k)`, the parity-0 and the
parity-1 slot; a slot holds its own flag word `tflag` and the address
`pflag` of the partner's `tflag` (addresses are triples
thread/parity/round).  The first loop of the C init only lays out the
per-thread storage rows and is absorbed into this indexing; the second
loop is `ck_barrier_dissemination_init_step` below.  The process-wide
`ck_barrier_dissemination_nthr` word recorded by the init is passed to
the wait explicitly. -/

structure CkDisFlag where
  pflag : Nat × Nat × Nat
  tflag : Nat
deriving DecidableEq

/-- Loop body of `ck_barrier_dissemination_init` for thread `i`, round
`k`: pick the partner `j` (bit-mask when `nthr` is a power of two, C
modulo otherwise; `offset` is the value `1 << k` that the loop keeps in a
register), point both parity `pflag`s at `j`, zero both `tflag`s. -/
def ck_barrier_dissemination_init_step (nthr i k : Nat) (_old : CkDisFlag × CkDisFlag) :
    CkDisFlag × CkDisFlag :=
  let offset := 2 ^ k
  let j := if nthr &&& (nthr - 1) = 0
           then (i + offset) &&& (nthr - 1)
           else (i + offset) % nthr
  ({ pflag := (j, 0, k), tflag := 0 }, { pflag := (j, 1, k), tflag := 0 })

/-- Source: `ck_barrier_dissemination_init` with
`size = log(power_2(nthr))`. -/
def ck_barrier_dissemination_init (nthr : Nat)
    (t : Nat × Nat → CkDisFlag × CkDisFlag) : Nat × Nat → CkDisFlag × CkDisFlag :=
  tableInit (ck_barrier_dissemination_init_step nthr) nthr
    (ck_barrier_internal_log (ck_barrier_internal_power_2 nthr)) t

/-- Read `barrier[i].flags[p][k]`. -/
def disFlagsRead (t : Nat × Nat → CkDisFlag × CkDisFlag) (i p k : Nat) : CkDisFlag :=
  if p = 0 then (t (i, k)).1 else (t (i, k)).2

/-- All-zero initial dissemination flag table, used by concrete runs. -/
def tdis0 : Nat × Nat → CkDisFlag × CkDisFlag :=
  fun _ => ({ pflag := (0, 0, 0), tflag := 0 }, { pflag := (0, 0, 0), tflag := 0 })

/-- Per-thread dissemination state: parity, sense, virtual thread id. -/
structure CkDisState where
  parity : Nat
  sense : Nat
  tid : Nat
deriving DecidableEq

/-- Source: `ck_barrier_dissemination_state_init` (the process-wide tid
counter is modelled by passing the assigned tid). -/
def ck_barrier_dissemination_state_init (tid : Nat) : CkDisState :=
  { parity := 0, sense := not32 0, tid := tid }

/-- Store `v` into the `tflag` addressed by `a` (thread, parity, round). -/
def disStoreT (t : Nat × Nat → CkDisFlag × CkDisFlag) (a : Nat × Nat × Nat) (v : Nat) :
    Nat × Nat → CkDisFlag × CkDisFlag :=
  if a.2.1 = 0 then
    Function.update t (a.1, a.2.2) ({ (t (a.1, a.2.2)).1 with tflag := v }, (t (a.1, a.2.2)).2)
  else
    Function.update t (a.1, a.2.2) ((t (a.1, a.2.2)).1, { (t (a.1, a.2.2)).2 with tflag := v })

/-- The round loop of `ck_barrier_dissemination`: for each round, store
the sense through the slot's `pflag` (unblock the partner), then spin on
the own `tflag`. -/
def ck_barrier_dissemination_rounds (tid parity sense : Nat) :
    List Nat → (Nat × Nat → CkDisFlag × CkDisFlag) →
      Option (Nat × Nat → CkDisFlag × CkDisFlag)
  | [], t => some t
  | k :: ks, t =>
      let t2 := disStoreT t (disFlagsRead t tid parity k).pflag sense
      if (disFlagsRead t2 tid parity k).tflag = sense then
        ck_barrier_dissemination_rounds tid parity sense ks t2
      else none

/-- Source: `ck_barrier_dissemination`.  `nthr` stands for the value of
the process-wide `ck_barrier_dissemination_nthr` word recorded by the
init.  After the round loop: `if (state->parity == 1)
state->sense = ~state->sense; state->parity = 1 - state->parity;`. -/
def ck_barrier_dissemination (nthr : Nat) (t : Nat × Nat → CkDisFlag × CkDisFlag)
    (st : CkDisState) :
    Option ((Nat × Nat → CkDisFlag × CkDisFlag) × CkDisState) :=
  (ck_barrier_dissemination_rounds st.tid st.parity st.sense
      (List.range (ck_barrier_internal_log (ck_barrier_internal_power_2 nthr))) t).map
    (fun t2 => (t2, { parity := 1 - st.parity,
                      sense := if st.parity = 1 then not32 st.sense else st.sense,
                      tid := st.tid }))

/-! ## Tournament barrier (lines 360-493)

Round slots are kept in a table over pairs (thread, round); a slot holds
its role, its opponent pointer (modelled as the (thread, round) address
of a flag word) and its own flag.  `ck_barrier_tournament_round_init` is
the nested loop over `(i, k)`; its body is decomposed into the source's
three successive statement groups. -/

inductive CkRole where
  | BYE
  | CHAMPION
  | DROPOUT
  | LOSER
  | WINNER
deriving DecidableEq

structure CkTournamentRound where
  role : CkRole
  opponent : Nat × Nat
  flag : Nat
deriving DecidableEq

/-- First statement group of the round-init body:
`imod2k = i & (twok - 1); if (imod2k == 0) { if (i + twokm1 < nthr && twok < nthr)
role = WINNER; else if (i + twokm1 >= nthr) role = BYE; }`. -/
def tournamentRoleStage1 (nthr i twok twokm1 : Nat) (r0 : CkTournamentRound) :
    CkTournamentRound :=
  if i &&& (twok - 1) = 0 then
    (if i + twokm1 < nthr ∧ twok < nthr then { r0 with role := CkRole.WINNER }
     else if nthr ≤ i + twokm1 then { r0 with role := CkRole.BYE }
     else r0)
  else r0

/-- Second statement group: `if (imod2k == twokm1) role = LOSER;
else if (i == 0 && twok >= nthr) role = CHAMPION;`. -/
def tournamentRoleStage2 (nthr i twok twokm1 : Nat) (r1 : CkTournamentRound) :
    CkTournamentRound :=
  if i &&& (twok - 1) = twokm1 then { r1 with role := CkRole.LOSER }
  else if i = 0 ∧ nthr ≤ twok then { r1 with role := CkRole.CHAMPION }
  else r1

/-- Third statement group: `if (role == LOSER) opponent = &rounds[i - twokm1][k].flag;
else if (role == WINNER || role == CHAMPION) opponent = &rounds[i + twokm1][k].flag;`.
The read of `role` here sees whatever the slot holds at this point, which
is the stale pre-call value whenever the first two groups wrote nothing.
`i - twokm1` is the wrapping unsigned subtraction (it can underflow on
the stale-LOSER path); `i + twokm1` cannot wrap for any round the loop
visits, because rounds `k >= 1` exist only when `nthr <= 2^31`. -/
def tournamentOpponentStage (i twokm1 k : Nat) (r2 : CkTournamentRound) :
    CkTournamentRound :=
  if r2.role = CkRole.LOSER then { r2 with opponent := (usub32 i twokm1, k) }
  else if r2.role = CkRole.WINNER ∨ r2.role = CkRole.CHAMPION then
    { r2 with opponent := (i + twokm1, k) }
  else r2

/-- Loop body of `ck_barrier_tournament_round_init` for thread `i`,
round `k`.  Round 0 is `rounds[i][0].flag = 0; rounds[i][0].role = DROPOUT;`;
a round `k = kp + 1` runs with `twok = 2^k`, `twokm1 = 2^(k-1)` (the loop
keeps them in registers) and first stores `rounds[i][k].flag = 0`. -/
def ck_barrier_tournament_round_step (nthr i k : Nat) (old : CkTournamentRound) :
    CkTournamentRound :=
  match k with
  | 0 => { old with flag := 0, role := CkRole.DROPOUT }
  | kp + 1 =>
      tournamentOpponentStage i (2 ^ kp) (kp + 1)
        (tournamentRoleStage2 nthr i (2 ^ (kp + 1)) (2 ^ kp)
          (tournamentRoleStage1 nthr i (2 ^ (kp + 1)) (2 ^ kp) { old with flag := 0 }))

/-- Source: `ck_barrier_tournament_round_init` with
`size = ck_barrier_tournament_size(nthr)`. -/
def ck_barrier_tournament_round_init (nthr : Nat) (t : Nat × Nat → CkTournamentRound) :
    Nat × Nat → CkTournamentRound :=
  tableInit (ck_barrier_tournament_round_step nthr) nthr (ck_barrier_tournament_size nthr) t

/-- Fresh (caller-zeroed) tournament round table: all roles DROPOUT, no
opponent set, flags 0; used by the concrete runs. -/
def ttour0 : Nat × Nat → CkTournamentRound :=
  fun _ => { role := CkRole.DROPOUT, opponent := (0, 0), flag := 0 }

/-- Tournament table with a stale LOSER role left at slot (3, 2) by the
caller; exercises the frame behavior of the init. -/
def ttourStale : Nat × Nat → CkTournamentRound :=
  fun p => if p = (3, 2) then { role := CkRole.LOSER, opponent := (9, 9), flag := 7 }
           else { role := CkRole.DROPOUT, opponent := (0, 0), flag := 0 }

/-! ## MCS tree barrier (lines 495-604)

Nodes live in a caller array modelled as a total function; the three
kinds of words a node pointer can address (a node's scratch `dummy`, a
`childnotready` slot, a `parentsense` word) become an inductive address
type.  `havechild`, `childnotready` and `children` are modelled as
functions defined by the init on the indices the loops write (0..3 and
0..1); other indices keep the old contents. -/

inductive CkMcsPtr where
  | dummyW (i : Nat)
  | childnotreadyW (i j : Nat)
  | parentsenseW (i : Nat)
deriving DecidableEq

structure CkMcsNode where
  parent : CkMcsPtr
  parentsense : Nat
  havechild : Nat → Nat
  childnotready : Nat → Nat
  children : Nat → CkMcsPtr
  dummy : Nat

/-- Loop body of `ck_barrier_mcs_init` for node `i`.  All the index
arithmetic (`i << 2`, `i << 1`, `nthr - 1`, the `+ j` / `+ 1` / `+ 2`)
is C unsigned arithmetic, hence the explicit `u32` reductions at every
spot where a wrap can occur. -/
def ck_barrier_mcs_init_step (nthr i : Nat) (old : CkMcsNode) : CkMcsNode :=
  let havechild : Nat → Nat := fun j =>
    if j < 4 then
      (if u32 (i <<< 2) + j < u32 (nthr + (2 ^ 32 - 1)) then not32 0 else 0)
    else old.havechild j
  let childnotready : Nat → Nat := fun j =>
    if j < 4 then havechild j else old.childnotready j
  let parent : CkMcsPtr :=
    if i = 0 then CkMcsPtr.dummyW i
    else CkMcsPtr.childnotreadyW ((i - 1) >>> 2) ((i - 1) &&& 3)
  let children : Nat → CkMcsPtr := fun c =>
    if c = 0 then
      (if nthr ≤ u32 (i <<< 1) + 1 then CkMcsPtr.dummyW i
       else CkMcsPtr.parentsenseW (u32 (i <<< 1) + 1))
    else if c = 1 then
      (if nthr ≤ u32 (u32 (i <<< 1) + 2) then CkMcsPtr.dummyW i
       else CkMcsPtr.parentsenseW (u32 (u32 (i <<< 1) + 2)))
    else old.children c
  { parent := parent, parentsense := 0, havechild := havechild,
    childnotready := childnotready, children := children, dummy := old.dummy }

/-- Source: `ck_barrier_mcs_init(barrier, nthr)`. -/
def ck_barrier_mcs_init (nthr : Nat) (t : Nat → CkMcsNode) : Nat → CkMcsNode :=
  arrInit (ck_barrier_mcs_init_step nthr) nthr t

/-- All-zero initial MCS node array, used by concrete runs. -/
def tmcs0 : Nat → CkMcsNode :=
  fun _ => { parent := CkMcsPtr.dummyW 0, parentsense := 0, havechild := fun _ => 0,
             childnotready := fun _ => 0, children := fun _ => CkMcsPtr.dummyW 0,
             dummy := 0 }

/-! ## Software combining tree barrier (lines 93-268)

Thread groups live in an arena indexed by group ids; `parent`, `lchild`,
`rchild` and the intrusive queue link `next` are optional ids.  The
spinlock that serializes `group_init` is the sequential execution itself.
The `while (queue.head != NULL)` BFS loop gets fuel; every concrete run
below uses enough fuel that the loop ends by insertion, as in the C. -/

structure CkCombiningGroup where
  k : Nat
  count : Nat
  sense : Nat
  parent : Option Nat
  lchild : Option Nat
  rchild : Option Nat
  next : Option Nat
deriving DecidableEq

structure CkCombiningQueue where
  head : Option Nat
  tail : Option Nat
deriving DecidableEq

/-- Source: `ck_barrier_combining_queue_enqueue`.  The impossible state
(head set, tail clear) never arises from an empty queue; it is mapped to
a no-op. -/
def ck_barrier_combining_queue_enqueue (a : Nat → CkCombiningGroup)
    (q : CkCombiningQueue) (v : Nat) : (Nat → CkCombiningGroup) × CkCombiningQueue :=
  let a := Function.update a v { a v with next := none }
  match q.head with
  | none => (a, { head := some v, tail := some v })
  | some _ =>
      match q.tail with
      | some tl => (Function.update a tl { a tl with next := some v },
                    { q with tail := some v })
      | none => (a, q)

/-- Source: `ck_barrier_combining_queue_dequeue` (`tail` is left stale). -/
def ck_barrier_combining_queue_dequeue (a : Nat → CkCombiningGroup)
    (q : CkCombiningQueue) : Option Nat × CkCombiningQueue :=
  match q.head with
  | none => (none, q)
  | some f => (some f, { q with head := (a f).next })

/-- Source: `ck_barrier_combining_insert`: attach `tnode` in the chosen
child slot, set its parent, and increment the parent's `k` (unsigned). -/
def ck_barrier_combining_insert (a : Nat → CkCombiningGroup) (parent tnode : Nat)
    (leftSlot : Bool) : Nat → CkCombiningGroup :=
  let a := if leftSlot then Function.update a parent { a parent with lchild := some tnode }
           else Function.update a parent { a parent with rchild := some tnode }
  let a := Function.update a tnode { a tnode with parent := some parent }
  Function.update a parent { a parent with k := u32 ((a parent).k + 1) }

/-- Source: `ck_barrier_combining_try_insert`: left slot first, then
right, else fail. -/
def ck_barrier_combining_try_insert (a : Nat → CkCombiningGroup) (parent tnode : Nat) :
    Option (Nat → CkCombiningGroup) :=
  if (a parent).lchild = none then some (ck_barrier_combining_insert a parent tnode true)
  else if (a parent).rchild = none then
    some (ck_barrier_combining_insert a parent tnode false)
  else none

/-- The BFS loop of `ck_barrier_combining_group_init`.  On try_insert
failure both children exist (that is the only way it fails), and they are
enqueued; the impossible shapes fall back to returning the arena. -/
def ck_barrier_combining_group_init_loop :
    Nat → (Nat → CkCombiningGroup) → CkCombiningQueue → Nat → (Nat → CkCombiningGroup)
  | 0, a, _, _ => a
  | fuel + 1, a, q, tnode =>
      match q.head with
      | none => a
      | some _ =>
          match ck_barrier_combining_queue_dequeue a q with
          | (none, _) => a
          | (some node, q2) =>
              match ck_barrier_combining_try_insert a node tnode with
              | some a2 => a2
              | none =>
                  match (a node).lchild, (a node).rchild with
                  | some l, some r =>
                      let p3 := ck_barrier_combining_queue_enqueue a q2 l
                      let p4 := ck_barrier_combining_queue_enqueue p3.1 p3.2 r
                      ck_barrier_combining_group_init_loop fuel p4.1 p4.2 tnode
                  | _, _ => a

/-- Source: `ck_barrier_combining_group_init(root, tnode, nthr)`:
initialize the new group, then BFS from `root` (the id stored in the
barrier descriptor) for a free child slot. -/
def ck_barrier_combining_group_init (fuel root : Nat) (a : Nat → CkCombiningGroup)
    (tnode nthr : Nat) : Nat → CkCombiningGroup :=
  let a := Function.update a tnode
    { a tnode with k := nthr, count := 0, sense := 0, lchild := none, rchild := none }
  let p := ck_barrier_combining_queue_enqueue a { head := none, tail := none } root
  ck_barrier_combining_group_init_loop fuel p.1 p.2 tnode

/-- Source: `ck_barrier_combining_init(root, init_root)`: the seed group
gets k = 0 and no links; the descriptor keeps its id (modelled by the
caller passing the id around). -/
def ck_barrier_combining_init (a : Nat → CkCombiningGroup) (init_root : Nat) :
    Nat → CkCombiningGroup :=
  Function.update a init_root
    { a init_root with
        k := 0, count := 0, sense := 0,
        parent := none, lchild := none, rchild := none }

/-- An unregistered group record. -/
def combG0 : CkCombiningGroup :=
  { k := 0, count := 0, sense := 0, parent := none, lchild := none,
    rchild := none, next := none }

/-- The C7 scenario: seed group 0, then three `group_init` calls with
nthr = 2 registering groups 1, 2, 3. -/
def combScenarioArena : Nat → CkCombiningGroup :=
  ck_barrier_combining_group_init 8 0
    (ck_barrier_combining_group_init 8 0
      (ck_barrier_combining_group_init 8 0
        (ck_barrier_combining_init (fun _ => combG0) 0) 1 2) 2 2) 3 2

/-- Source: `ck_barrier_combining_aux` (recursive arrival), with fuel for
the parent recursion.  `tnode->k - 1` is unsigned; the last thread
recurses into the parent, then resets the count and inverts the group
sense in place; others complete only if the group sense already equals
their expected sense. -/
def ck_barrier_combining_aux :
    Nat → (Nat → CkCombiningGroup) → Nat → Nat → Option (Nat → CkCombiningGroup)
  | 0, _, _, _ => none
  | fuel + 1, a, tnode, sense =>
      let prior := (a tnode).count
      let a := Function.update a tnode { a tnode with count := u32 ((a tnode).count + 1) }
      if prior = u32 ((a tnode).k + (2 ^ 32 - 1)) then
        match (a tnode).parent with
        | some p =>
            match ck_barrier_combining_aux fuel a p sense with
            | none => none
            | some a2 =>
                let a3 := Function.update a2 tnode { a2 tnode with count := 0 }
                some (Function.update a3 tnode
                  { a3 tnode with sense := not32 (a3 tnode).sense })
        | none =>
            let a3 := Function.update a tnode { a tnode with count := 0 }
            some (Function.update a3 tnode
              { a3 tnode with sense := not32 (a3 tnode).sense })
      else
        if sense = (a tnode).sense then some a else none

structure CkCombiningState where
  sense : Nat
deriving DecidableEq

/-- Source: `ck_barrier_combining`: run the arrival from the thread's
group, then invert the thread's private sense. -/
def ck_barrier_combining (fuel : Nat) (a : Nat → CkCombiningGroup) (tnode : Nat)
    (st : CkCombiningState) : Option ((Nat → CkCombiningGroup) × CkCombiningState) :=
  (ck_barrier_combining_aux fuel a tnode st.sense).map
    (fun a2 => (a2, { sense := not32 st.sense }))

/-! ## MCS and tournament wait operations -/

structure CkMcsState where
  sense : Nat
  vpid : Nat
deriving DecidableEq

/-- Source: `ck_barrier_mcs_state_init` (sense all-ones; the vpid comes
from the process-wide counter, modelled by passing the assigned id). -/
def ck_barrier_mcs_state_init (vpid : Nat) : CkMcsState :=
  { sense := not32 0, vpid := vpid }

/-- Source: `ck_barrier_mcs_check_children`: all four `childnotready`
slots are 0. -/
def ck_barrier_mcs_check_children (cnr : Nat → Nat) : Bool :=
  (cnr 0 == 0) && (cnr 1 == 0) && (cnr 2 == 0) && (cnr 3 == 0)

/-- Store through an MCS node pointer. -/
def mcsStore (a : Nat → CkMcsNode) (p : CkMcsPtr) (v : Nat) : Nat → CkMcsNode :=
  match p with
  | CkMcsPtr.dummyW i => Function.update a i { a i with dummy := v }
  | CkMcsPtr.childnotreadyW i j =>
      Function.update a i
        { a i with childnotready := Function.update (a i).childnotready j v }
  | CkMcsPtr.parentsenseW i => Function.update a i { a i with parentsense := v }

/-- Source: `ck_barrier_mcs`: spin until the children are ready,
reinitialize `childnotready` from `havechild`, notify the parent, spin on
`parentsense` unless vpid = 0, release both children, invert the sense. -/
def ck_barrier_mcs (a : Nat → CkMcsNode) (st : CkMcsState) :
    Option ((Nat → CkMcsNode) × CkMcsState) :=
  if ck_barrier_mcs_check_children (a st.vpid).childnotready then
    let a := Function.update a st.vpid
      { a st.vpid with childnotready := fun j =>
          if j < 4 then (a st.vpid).havechild j else (a st.vpid).childnotready j }
    let a := mcsStore a (a st.vpid).parent 0
    if st.vpid = 0 ∨ (a st.vpid).parentsense = st.sense then
      let a := mcsStore a ((a st.vpid).children 0) st.sense
      let a := mcsStore a ((a st.vpid).children 1) st.sense
      some (a, { sense := not32 st.sense, vpid := st.vpid })
    else none
  else none

structure CkTournamentState where
  sense : Nat
  vpid : Nat
deriving DecidableEq

/-- Source: `ck_barrier_tournament_state_init`. -/
def ck_barrier_tournament_state_init (vpid : Nat) : CkTournamentState :=
  { sense := not32 0, vpid := vpid }

/-- Bounds-instrumented read of `rounds[vpid][round]`: the caller
allocates `size` round slots per thread (`ck_barrier_tournament_size`),
so a read beyond them is an out-of-bounds access and poisons the run. -/
def tournamentRead (size : Nat) (t : Nat × Nat → CkTournamentRound) (vpid round : Nat) :
    Option CkTournamentRound :=
  if round < size then some (t (vpid, round)) else none

/-- Store through a tournament opponent pointer (a flag address). -/
def tournamentStoreFlag (t : Nat × Nat → CkTournamentRound) (addr : Nat × Nat) (v : Nat) :
    Nat × Nat → CkTournamentRound :=
  Function.update t addr { t addr with flag := v }

/-- Arrival pass of `ck_barrier_tournament` starting at `round` (the C
starts at 1): BYE and the unreachable DROPOUT advance; WINNER spins on
its own flag then advances; LOSER signals its opponent, spins, then jumps
to wakeup; CHAMPION spins, signals, then jumps to wakeup.  Returns the
table and the round at which the wakeup starts. -/
def ck_barrier_tournament_arrival :
    Nat → Nat → (Nat × Nat → CkTournamentRound) → Nat → Nat → Nat →
      Option ((Nat × Nat → CkTournamentRound) × Nat)
  | 0, _, _, _, _, _ => none
  | fuel + 1, size, t, vpid, sense, round =>
      match tournamentRead size t vpid round with
      | none => none
      | some r =>
          match r.role with
          | CkRole.BYE => ck_barrier_tournament_arrival fuel size t vpid sense (round + 1)
          | CkRole.DROPOUT =>
              ck_barrier_tournament_arrival fuel size t vpid sense (round + 1)
          | CkRole.WINNER =>
              if r.flag = sense then
                ck_barrier_tournament_arrival fuel size t vpid sense (round + 1)
              else none
          | CkRole.LOSER =>
              let t2 := tournamentStoreFlag t r.opponent sense
              if (t2 (vpid, round)).flag = sense then some (t2, round) else none
          | CkRole.CHAMPION =>
              if r.flag = sense then
                some (tournamentStoreFlag t r.opponent sense, round)
              else none

/-- Wakeup pass of `ck_barrier_tournament`, descending from `round`:
DROPOUT ends the wait; WINNER signals its old opponent; BYE (and the
unreachable CHAMPION and LOSER) just descend. -/
def ck_barrier_tournament_wakeup :
    Nat → Nat → (Nat × Nat → CkTournamentRound) → Nat → Nat → Nat →
      Option (Nat × Nat → CkTournamentRound)
  | 0, _, _, _, _, _ => none
  | fuel + 1, size, t, vpid, sense, round =>
      match tournamentRead size t vpid round with
      | none => none
      | some r =>
          match r.role with
          | CkRole.DROPOUT => some t
          | CkRole.WINNER =>
              ck_barrier_tournament_wakeup fuel size
                (tournamentStoreFlag t r.opponent sense) vpid sense (round - 1)
          | _ => ck_barrier_tournament_wakeup fuel size t vpid sense (round - 1)

/-- Source: `ck_barrier_tournament`: arrival from round 1, wakeup from
`round - 1`, then invert the private sense. -/
def ck_barrier_tournament (fuel size : Nat) (t : Nat × Nat → CkTournamentRound)
    (st : CkTournamentState) :
    Option ((Nat × Nat → CkTournamentRound) × CkTournamentState) :=
  match ck_barrier_tournament_arrival fuel size t st.vpid st.sense 1 with
  | none => none
  | some (t2, round) =>
      match ck_barrier_tournament_wakeup fuel size t2 st.vpid st.sense (round - 1) with
      | none => none
      | some t3 => some (t3, { sense := not32 st.sense, vpid := st.vpid })

/-- The combining topology of the N = 1 boundary case: seed 0, one group
(id 1, nthr = 1). -/
def combN1Arena : Nat → CkCombiningGroup :=
  ck_barrier_combining_group_init 8 0 (ck_barrier_combining_init (fun _ => combG0) 0) 1 1

/-! ## Theorems -/

theorem not32_not32 (x : Nat) (hx : x < 2 ^ 32) : not32 (not32 x) = x := by
  unfold not32
  have h1 : x % 2 ^ 32 = x := Nat.mod_eq_of_lt hx
  rw [h1]
  have h2 : 2 ^ 32 - 1 - x < 2 ^ 32 := by omega
  rw [Nat.mod_eq_of_lt h2]
  omega

theorem not32_lt (x : Nat) : not32 x < 2 ^ 32 := by
  unfold not32; omega

theorem usub32_eq (a b : Nat) (hb : b ≤ a) (hb32 : b < 2 ^ 32) (ha : a < 2 ^ 32) :
    usub32 a b = a - b := by
  unfold usub32
  rw [Nat.mod_eq_of_lt hb32]
  have h : a + (2 ^ 32 - b) = (a - b) + 2 ^ 32 := by omega
  rw [h, Nat.add_mod_right, Nat.mod_eq_of_lt (by omega)]

/-! ### Correctness of the bit smear -/

theorem smearStep_testBit (y k j : Nat) :
    (smearStep y k).testBit j = (y.testBit j || y.testBit (k + j)) := by
  simp [smearStep, Nat.testBit_or, Nat.testBit_shiftRight]

theorem smearStep_spec (x y m : Nat) (hm : 0 < m)
    (h : ∀ j, y.testBit j = true ↔ ∃ d, d < m ∧ x.testBit (j + d) = true) :
    ∀ j, (smearStep y m).testBit j = true ↔ ∃ d, d < 2 * m ∧ x.testBit (j + d) = true := by
  intro j
  rw [smearStep_testBit, Bool.or_eq_true, h j, h (m + j)]
  constructor
  · rintro (⟨d, hd, hbit⟩ | ⟨d, hd, hbit⟩)
    · exact ⟨d, by omega, hbit⟩
    · refine ⟨m + d, by omega, ?_⟩
      have he : j + (m + d) = m + j + d := by omega
      rw [he]; exact hbit
  · rintro ⟨d, hd, hbit⟩
    by_cases hdm : d < m
    · exact Or.inl ⟨d, hdm, hbit⟩
    · refine Or.inr ⟨d - m, by omega, ?_⟩
      have he : m + j + (d - m) = j + d := by omega
      rw [he]; exact hbit

theorem smear_testBit (x j : Nat) :
    (smear x).testBit j = true ↔ ∃ d, d < 32 ∧ x.testBit (j + d) = true := by
  have h1 : ∀ j, x.testBit j = true ↔ ∃ d, d < 1 ∧ x.testBit (j + d) = true := by
    intro j
    constructor
    · intro h; exact ⟨0, by omega, by simpa using h⟩
    · rintro ⟨d, hd, h⟩
      have hd0 : d = 0 := by omega
      simpa [hd0] using h
  have h2 := smearStep_spec x x 1 (by omega) h1
  have h4 := smearStep_spec x (smearStep x 1) 2 (by omega) h2
  have h8 := smearStep_spec x (smearStep (smearStep x 1) 2) 4 (by omega) h4
  have h16 := smearStep_spec x (smearStep (smearStep (smearStep x 1) 2) 4) 8 (by omega) h8
  have h32 := smearStep_spec x (smearStep (smearStep (smearStep (smearStep x 1) 2) 4) 8) 16
    (by omega) h16
  exact h32 j

theorem testBit_size_sub_one (x : Nat) (hx : 0 < x) :
    x.testBit (x.size - 1) = true := by
  have hpos : 0 < x.size := Nat.size_pos.mpr hx
  have h1 : 2 ^ (x.size - 1) ≤ x := Nat.lt_size.mp (by omega)
  have h2 : x < 2 ^ x.size := Nat.lt_size_self x
  have hsz : x.size = (x.size - 1) + 1 := by omega
  rw [hsz, pow_succ] at h2
  have hdiv : x / 2 ^ (x.size - 1) = 1 :=
    Nat.div_eq_of_lt_le (by omega) (by omega)
  rw [Nat.testBit_to_div_mod, hdiv]
  rfl

theorem testBit_ge_size (x j : Nat) (hj : x.size ≤ j) : x.testBit j = false := by
  have h1 : x < 2 ^ x.size := Nat.lt_size_self x
  have h2 : (2 : Nat) ^ x.size ≤ 2 ^ j := Nat.pow_le_pow_right (by omega) hj
  exact Nat.testBit_lt_two_pow (by omega)

theorem smear_eq (x : Nat) (hx : x < 2 ^ 32) : smear x = 2 ^ x.size - 1 := by
  have hsz : x.size ≤ 32 := Nat.size_le.mpr hx
  apply Nat.eq_of_testBit_eq
  intro j
  rw [Nat.testBit_two_pow_sub_one]
  by_cases hj : j < x.size
  · have hx0 : 0 < x := by
      rcases Nat.eq_zero_or_pos x with h0 | h0
      · rw [h0] at hj; simp [Nat.size_zero] at hj
      · exact h0
    have hwit : ∃ d, d < 32 ∧ x.testBit (j + d) = true := by
      refine ⟨x.size - 1 - j, by omega, ?_⟩
      have he : j + (x.size - 1 - j) = x.size - 1 := by omega
      rw [he]; exact testBit_size_sub_one x hx0
    rw [(smear_testBit x j).mpr hwit]
    simp [hj]
  · have hnone : (smear x).testBit j = false := by
      by_contra hne
      have htrue : (smear x).testBit j = true := by
        cases hb : (smear x).testBit j
        · exact absurd hb hne
        · rfl
      obtain ⟨d, _, hbit⟩ := (smear_testBit x j).mp htrue
      have : x.testBit (j + d) = false := testBit_ge_size x (j + d) (by omega)
      rw [this] at hbit
      exact Bool.false_ne_true hbit
    rw [hnone]
    simp [hj]

theorem size_pred_eq_clog (N : Nat) (h1 : 1 ≤ N) : (N - 1).size = Nat.clog 2 N := by
  rcases Nat.lt_or_ge N 2 with hN | hN
  · have hN1 : N = 1 := by omega
    subst hN1
    simp [Nat.size_zero, Nat.clog_one_right]
  · apply Nat.le_antisymm
    · apply Nat.size_le.mpr
      have h : N ≤ 2 ^ Nat.clog 2 N := Nat.le_pow_clog (by omega) N
      omega
    · apply (Nat.le_pow_iff_clog_le (by omega)).mp
      have h : N - 1 < 2 ^ (N - 1).size := Nat.lt_size_self (N - 1)
      omega

theorem power_2_eq (N : Nat) (h1 : 1 ≤ N) (h2 : N ≤ 2 ^ 31) :
    ck_barrier_internal_power_2 N = 2 ^ Nat.clog 2 N := by
  unfold ck_barrier_internal_power_2
  have hm : (N + (2 ^ 32 - 1)) % 2 ^ 32 = N - 1 := by
    have he : N + (2 ^ 32 - 1) = (N - 1) + 2 ^ 32 := by omega
    rw [he, Nat.add_mod_right, Nat.mod_eq_of_lt (by omega)]
  rw [hm, smear_eq (N - 1) (by omega)]
  have hsz : (N - 1).size ≤ 31 := Nat.size_le.mpr (by omega)
  have hp : 0 < 2 ^ (N - 1).size := Nat.pos_pow_of_pos _ (by omega)
  have hlt : 2 ^ (N - 1).size < 2 ^ 32 :=
    Nat.lt_of_le_of_lt (Nat.pow_le_pow_right (by omega) hsz) (by norm_num)
  rw [Nat.sub_add_cancel hp, Nat.mod_eq_of_lt hlt, size_pred_eq_clog N h1]

theorem power_2_hi (N : Nat) (h1 : 2 ^ 31 < N) (h2 : N < 2 ^ 32) :
    ck_barrier_internal_power_2 N = 0 := by
  unfold ck_barrier_internal_power_2
  have hm : (N + (2 ^ 32 - 1)) % 2 ^ 32 = N - 1 := by
    have he : N + (2 ^ 32 - 1) = (N - 1) + 2 ^ 32 := by omega
    rw [he, Nat.add_mod_right, Nat.mod_eq_of_lt (by omega)]
  rw [hm, smear_eq (N - 1) (by omega)]
  have hsz : (N - 1).size = 32 := by
    apply Nat.le_antisymm (Nat.size_le.mpr (by omega))
    have := Nat.lt_size.mpr (show 2 ^ 31 ≤ N - 1 by omega)
    omega
  rw [hsz]
  norm_num

theorem ck_log_two_pow : ∀ p, p < 32 → ck_barrier_internal_log (2 ^ p) = p := by decide

theorem ck_log_zero : ck_barrier_internal_log 0 = 0 := by decide

theorem internal_size_eq (N : Nat) (h1 : 1 ≤ N) (h2 : N ≤ 2 ^ 31) :
    ck_barrier_internal_log (ck_barrier_internal_power_2 N) = Nat.clog 2 N := by
  rw [power_2_eq N h1 h2]
  have hc : Nat.clog 2 N ≤ 31 := (Nat.le_pow_iff_clog_le (by omega)).mp (by norm_num at h2 ⊢; omega)
  exact ck_log_two_pow _ (by omega)

theorem tournament_size_eq (N : Nat) (h1 : 1 ≤ N) (h2 : N ≤ 2 ^ 31) :
    ck_barrier_tournament_size N = Nat.clog 2 N + 1 := by
  unfold ck_barrier_tournament_size
  rw [internal_size_eq N h1 h2]

theorem tournament_size_hi (N : Nat) (h1 : 2 ^ 31 < N) (h2 : N < 2 ^ 32) :
    ck_barrier_tournament_size N = 1 := by
  unfold ck_barrier_tournament_size
  rw [power_2_hi N h1 h2, ck_log_zero]

/-! ### Power-of-two detection (`(nthr & (nthr - 1)) == 0`) -/

theorem land_div_two (x y : Nat) : (x &&& y) / 2 = (x / 2) &&& (y / 2) := by
  apply Nat.eq_of_testBit_eq
  intro j
  rw [Nat.testBit_div_two, Nat.testBit_and, Nat.testBit_and,
    Nat.testBit_div_two, Nat.testBit_div_two]

theorem pow2_of_and_pred : ∀ x, 0 < x → x &&& (x - 1) = 0 → ∃ m, x = 2 ^ m := by
  intro x
  induction x using Nat.strong_induction_on with
  | _ x ih =>
    intro hx h
    by_cases hpar : x % 2 = 1
    · by_cases hx1 : x = 1
      · exact ⟨0, by simpa using hx1⟩
      · exfalso
        have hdiv := congrArg (· / 2) h
        simp only [land_div_two, Nat.zero_div] at hdiv
        have he : (x - 1) / 2 = x / 2 := by omega
        rw [he, Nat.and_self] at hdiv
        omega
    · have hx2 : 2 ≤ x := by omega
      have hm : 0 < x / 2 := by omega
      have hdiv := congrArg (· / 2) h
      simp only [land_div_two, Nat.zero_div] at hdiv
      have he : (x - 1) / 2 = x / 2 - 1 := by omega
      rw [he] at hdiv
      obtain ⟨m, hmeq⟩ := ih (x / 2) (by omega) hm hdiv
      refine ⟨m + 1, ?_⟩
      have : x = 2 * (x / 2) := by omega
      rw [this, hmeq, pow_succ]
      omega

theorem mask_eq_mod (x nthr : Nat) (hpos : 0 < nthr) (h : nthr &&& (nthr - 1) = 0) :
    x &&& (nthr - 1) = x % nthr := by
  obtain ⟨m, hm⟩ := pow2_of_and_pred nthr hpos h
  subst hm
  exact Nat.and_pow_two_sub_one_eq_mod x m

theorem arrInit_read {V : Type} (g : Nat → V → V) (n : Nat) (t : Nat → V) (i : Nat) :
    arrInit g n t i = if i < n then g i (t i) else t i := by
  induction n with
  | zero => simp [arrInit, List.range_zero]
  | succ n ih =>
    unfold arrInit
    rw [List.range_succ, List.foldl_append]
    simp only [List.foldl_cons, List.foldl_nil]
    have hprev : (List.range n).foldl (fun t i => Function.update t i (g i (t i))) t =
        arrInit g n t := rfl
    rw [hprev]
    by_cases hin : i = n
    · subst hin
      rw [Function.update_same, ih]
      have h1 : ¬ i < i := Nat.lt_irrefl i
      have h2 : i < i + 1 := Nat.lt_succ_self i
      simp [h1, h2]
    · rw [Function.update_noteq hin, ih]
      by_cases hlt : i < n
      · have h2 : i < n + 1 := by omega
        simp [hlt, h2]
      · have h2 : ¬ i < n + 1 := by omega
        simp [hlt, h2]

theorem tableInitRow_read {V : Type} (g : Nat → Nat → V → V) (i m : Nat)
    (t : Nat × Nat → V) (p : Nat × Nat) :
    tableInitRow g i m t p = if p.1 = i ∧ p.2 < m then g i p.2 (t p) else t p := by
  induction m with
  | zero => simp [tableInitRow, List.range_zero]
  | succ m ih =>
    unfold tableInitRow
    rw [List.range_succ, List.foldl_append]
    simp only [List.foldl_cons, List.foldl_nil]
    have hprev : (List.range m).foldl
        (fun t k => Function.update t (i, k) (g i k (t (i, k)))) t = tableInitRow g i m t := rfl
    rw [hprev]
    by_cases hp : p = (i, m)
    · subst hp
      rw [Function.update_same, ih]
      have h1 : ¬ ((i, m).2 < m) := Nat.lt_irrefl m
      have h2 : (i, m).1 = i ∧ (i, m).2 < m + 1 := ⟨rfl, Nat.lt_succ_self m⟩
      simp [h1, h2]
    · rw [Function.update_noteq hp, ih]
      by_cases hc : p.1 = i ∧ p.2 < m
      · have h2 : p.1 = i ∧ p.2 < m + 1 := ⟨hc.1, by omega⟩
        simp [hc, h2]
      · have h2 : ¬ (p.1 = i ∧ p.2 < m + 1) := by
          intro hcc
          apply hp
          have hpm : p.2 = m := by
            rcases Nat.lt_or_ge p.2 m with h | h
            · exact absurd ⟨hcc.1, h⟩ hc
            · omega
          have hpe : p = (p.1, p.2) := rfl
          rw [hpe, hcc.1, hpm]
        simp [hc, h2]

theorem tableInit_read {V : Type} (g : Nat → Nat → V → V) (n m : Nat)
    (t : Nat × Nat → V) (p : Nat × Nat) :
    tableInit g n m t p = if p.1 < n ∧ p.2 < m then g p.1 p.2 (t p) else t p := by
  induction n with
  | zero => simp [tableInit, List.range_zero]
  | succ n ih =>
    unfold tableInit
    rw [List.range_succ, List.foldl_append]
    simp only [List.foldl_cons, List.foldl_nil]
    have hprev : (List.range n).foldl
        (fun t i =>
          (List.range m).foldl (fun t k => Function.update t (i, k) (g i k (t (i, k)))) t) t =
        tableInit g n m t := rfl
    rw [hprev]
    have hrow : (List.range m).foldl
        (fun t k => Function.update t (n, k) (g n k (t (n, k)))) (tableInit g n m t) =
        tableInitRow g n m (tableInit g n m t) := rfl
    rw [hrow, tableInitRow_read]
    by_cases h1 : p.1 = n
    · have hn : ¬ (p.1 < n ∧ p.2 < m) := by omega
      rw [ih]
      by_cases h2 : p.2 < m
      · have hc1 : p.1 = n ∧ p.2 < m := ⟨h1, h2⟩
        have hc2 : p.1 < n + 1 ∧ p.2 < m := ⟨by omega, h2⟩
        simp [hn, hc1, hc2, h1]
      · have hc1 : ¬ (p.1 = n ∧ p.2 < m) := by intro hcc; exact h2 hcc.2
        have hc2 : ¬ (p.1 < n + 1 ∧ p.2 < m) := by intro hcc; exact h2 hcc.2
        simp [hn, hc1, hc2]
    · have hcr : ¬ (p.1 = n ∧ p.2 < m) := by intro hcc; exact h1 hcc.1
      rw [ih]
      by_cases hc : p.1 < n ∧ p.2 < m
      · have h2 : p.1 < n + 1 ∧ p.2 < m := ⟨by omega, hc.2⟩
        simp [hcr, hc, h2, h1]
      · have h2 : ¬ (p.1 < n + 1 ∧ p.2 < m) := by
          intro hcc
          exact hc ⟨by omega, hcc.2⟩
        simp [hcr, hc, h2, h1]

/-- C1: for n_threads >= 1, `ck_barrier_centralized` first inverts the
caller's sense (storing it), fetch-and-adds 1 to the shared counter; if
the prior value equals n_threads - 1 it resets the counter to 0 and then
publishes the new sense and returns; otherwise the counter is left
incremented and the call returns exactly when the shared sense already
equals the new expected sense. -/
theorem centralized_wait_spec (b : CkBarrierCentralized) (st : CkBarrierCentralizedState)
    (n : Nat) (h1 : 1 ≤ n) (h2 : n < 2 ^ 32) :
    (b.value = n - 1 →
      ck_barrier_centralized b st n =
        some ({ value := 0, sense := not32 st.sense }, { sense := not32 st.sense })) ∧
    (b.value ≠ n - 1 →
      ck_barrier_centralized b st n =
        (if not32 st.sense = b.sense
         then some ({ value := (b.value + 1) % 2 ^ 32, sense := b.sense },
                    { sense := not32 st.sense })
         else none)) := by
  have hm : (n + (2 ^ 32 - 1)) % 2 ^ 32 = n - 1 := by
    have he : n + (2 ^ 32 - 1) = (n - 1) + 2 ^ 32 := by omega
    rw [he, Nat.add_mod_right, Nat.mod_eq_of_lt (by omega)]
  constructor
  · intro hv
    unfold ck_barrier_centralized
    rw [hm, if_pos hv]
  · intro hv
    unfold ck_barrier_centralized
    rw [hm, if_neg hv]

theorem centralized_wait_spec_witness :
    (1 : Nat) ≤ 2 ∧ (2 : Nat) < 2 ^ 32 ∧
    ({ value := 1, sense := 0 } : CkBarrierCentralized).value = 2 - 1 ∧
    ck_barrier_centralized { value := 1, sense := 0 } { sense := 0 } 2 =
      some ({ value := 0, sense := not32 0 }, { sense := not32 0 }) :=
  ⟨by norm_num, by norm_num, rfl,
    (centralized_wait_spec { value := 1, sense := 0 } { sense := 0 } 2
      (by norm_num) (by norm_num)).1 rfl⟩

/-- C5: after `ck_barrier_dissemination_init` with 1 <= N <= 2^31, for
every thread i < N, parity p, round k < ceil(log2 N), the slot's `pflag`
addresses the `tflag` of partner `(i + 2^k) mod N` at the same parity and
round, and its own `tflag` is 0. -/
theorem dissemination_init_spec (nthr : Nat) (t : Nat × Nat → CkDisFlag × CkDisFlag)
    (i p k : Nat) (h1 : 1 ≤ nthr) (h2 : nthr ≤ 2 ^ 31) (hi : i < nthr) (hp : p < 2)
    (hk : k < Nat.clog 2 nthr) :
    disFlagsRead (ck_barrier_dissemination_init nthr t) i p k =
      { pflag := ((i + 2 ^ k) % nthr, p, k), tflag := 0 } := by
  have hsize : ck_barrier_internal_log (ck_barrier_internal_power_2 nthr) = Nat.clog 2 nthr :=
    internal_size_eq nthr h1 h2
  have hread : ck_barrier_dissemination_init nthr t (i, k) =
      ck_barrier_dissemination_init_step nthr i k (t (i, k)) := by
    unfold ck_barrier_dissemination_init
    rw [tableInit_read]
    rw [hsize]
    simp [hi, hk]
  have hj : (if nthr &&& (nthr - 1) = 0
             then (i + 2 ^ k) &&& (nthr - 1)
             else (i + 2 ^ k) % nthr) = (i + 2 ^ k) % nthr := by
    by_cases hmask : nthr &&& (nthr - 1) = 0
    · rw [if_pos hmask, mask_eq_mod (i + 2 ^ k) nthr (by omega) hmask]
    · rw [if_neg hmask]
  have hp01 : p = 0 ∨ p = 1 := by omega
  unfold disFlagsRead
  rw [hread]
  unfold ck_barrier_dissemination_init_step
  rcases hp01 with hp0 | hp1
  · subst hp0
    simp [hj]
  · subst hp1
    simp [hj]

theorem dissemination_init_spec_witness :
    (1 : Nat) ≤ 4 ∧ (4 : Nat) ≤ 2 ^ 31 ∧ (0 : Nat) < 4 ∧ (0 : Nat) < 2 ∧
    1 < Nat.clog 2 4 ∧
    disFlagsRead (ck_barrier_dissemination_init 4 tdis0) 0 0 1 =
      { pflag := ((0 + 2 ^ 1) % 4, 0, 1), tflag := 0 } := by
  have hc : 1 < Nat.clog 2 4 := by
    have h := @Nat.le_pow_iff_clog_le 2 (by norm_num) 4 1
    norm_num at h
    omega
  exact ⟨by norm_num, by norm_num, by norm_num, by norm_num, hc,
    dissemination_init_spec 4 tdis0 0 0 1 (by norm_num) (by norm_num) (by norm_num)
      (by norm_num) hc⟩

/-- C6 counterexample: with N = 1 a wait always completes at once (no
rounds).  Starting from parity 0 and sense 5, two completed calls to
`ck_barrier_dissemination` leave the sense inverted (4294967290 = ~5),
not restored to its initial value as the claim states. -/
theorem dissemination_two_episodes_cex :
    ck_barrier_dissemination 1 tdis0 { parity := 0, sense := 5, tid := 0 } =
      some (tdis0, { parity := 1, sense := 5, tid := 0 }) ∧
    ck_barrier_dissemination 1 tdis0 { parity := 1, sense := 5, tid := 0 } =
      some (tdis0, { parity := 0, sense := 4294967290, tid := 0 }) ∧
    (4294967290 : Nat) ≠ 5 := by
  refine ⟨?_, ?_, by norm_num⟩
  · rfl
  · rfl

/-- C6 (amended): every completed `ck_barrier_dissemination` call
inverts the sense exactly when the pre-call parity is 1 and always flips
the parity; hence two completed calls from parity 0 restore the parity
to 0 and leave the sense inverted exactly once (it is restored only
after four episodes). -/
theorem dissemination_sense_parity_spec :
    (∀ nthr t st t2 st2,
       ck_barrier_dissemination nthr t st = some (t2, st2) →
       st2.sense = (if st.parity = 1 then not32 st.sense else st.sense) ∧
       st2.parity = 1 - st.parity ∧ st2.tid = st.tid) ∧
    (∀ nthr t st t2 st2 t3 st3, st.parity = 0 →
       ck_barrier_dissemination nthr t st = some (t2, st2) →
       ck_barrier_dissemination nthr t2 st2 = some (t3, st3) →
       st3.sense = not32 st.sense ∧ st3.parity = 0) := by
  have hmain : ∀ nthr t st t2 st2,
      ck_barrier_dissemination nthr t st = some (t2, st2) →
      st2.sense = (if st.parity = 1 then not32 st.sense else st.sense) ∧
      st2.parity = 1 - st.parity ∧ st2.tid = st.tid := by
    intro nthr t st t2 st2 heq
    unfold ck_barrier_dissemination at heq
    rw [Option.map_eq_some'] at heq
    obtain ⟨t2x, hrounds, hpair⟩ := heq
    injection hpair with h1 h2
    subst h2
    exact ⟨rfl, rfl, rfl⟩
  refine ⟨hmain, ?_⟩
  intro nthr t st t2 st2 t3 st3 hpar h12 h23
  obtain ⟨hs2, hp2, _⟩ := hmain nthr t st t2 st2 h12
  obtain ⟨hs3, hp3, _⟩ := hmain nthr t2 st2 t3 st3 h23
  rw [hpar] at hs2 hp2
  simp only [if_neg (by omega : ¬ (0 : Nat) = 1)] at hs2
  constructor
  · rw [hs3, hp2, hs2]
    simp [hpar]
  · rw [hp3, hp2]

theorem dissemination_sense_parity_spec_witness :
    ({ parity := 0, sense := 5, tid := 0 } : CkDisState).parity = 0 ∧
    (({ parity := 0, sense := 4294967290, tid := 0 } : CkDisState).sense =
        not32 ({ parity := 0, sense := 5, tid := 0 } : CkDisState).sense ∧
     ({ parity := 0, sense := 4294967290, tid := 0 } : CkDisState).parity = 0) :=
  ⟨rfl, dissemination_sense_parity_spec.2 1 tdis0 { parity := 0, sense := 5, tid := 0 }
      tdis0 { parity := 1, sense := 5, tid := 0 } tdis0
      { parity := 0, sense := 4294967290, tid := 0 } rfl rfl rfl⟩

theorem opponentStage_role (i twokm1 k : Nat) (r2 : CkTournamentRound) :
    (tournamentOpponentStage i twokm1 k r2).role = r2.role := by
  unfold tournamentOpponentStage
  split_ifs <;> rfl

theorem opponentStage_flag (i twokm1 k : Nat) (r2 : CkTournamentRound) :
    (tournamentOpponentStage i twokm1 k r2).flag = r2.flag := by
  unfold tournamentOpponentStage
  split_ifs <;> rfl

theorem roleStage1_flag (nthr i twok twokm1 : Nat) (r0 : CkTournamentRound) :
    (tournamentRoleStage1 nthr i twok twokm1 r0).flag = r0.flag := by
  unfold tournamentRoleStage1
  split_ifs <;> rfl

theorem roleStage2_flag (nthr i twok twokm1 : Nat) (r1 : CkTournamentRound) :
    (tournamentRoleStage2 nthr i twok twokm1 r1).flag = r1.flag := by
  unfold tournamentRoleStage2
  split_ifs <;> rfl

theorem opponentStage_opp_wc (i twokm1 k : Nat) (r2 : CkTournamentRound)
    (h : r2.role = CkRole.WINNER ∨ r2.role = CkRole.CHAMPION) :
    (tournamentOpponentStage i twokm1 k r2).opponent = (i + twokm1, k) := by
  unfold tournamentOpponentStage
  have hne : ¬ r2.role = CkRole.LOSER := by
    rcases h with h | h <;> rw [h] <;> intro hc <;> exact absurd hc (by simp)
  rw [if_neg hne, if_pos h]

theorem opponentStage_opp_loser (i twokm1 k : Nat) (r2 : CkTournamentRound)
    (h : r2.role = CkRole.LOSER) :
    (tournamentOpponentStage i twokm1 k r2).opponent = (usub32 i twokm1, k) := by
  unfold tournamentOpponentStage
  rw [if_pos h]

theorem opponentStage_skip (i twokm1 k : Nat) (r2 : CkTournamentRound)
    (h1 : ¬ r2.role = CkRole.LOSER)
    (h2 : ¬ (r2.role = CkRole.WINNER ∨ r2.role = CkRole.CHAMPION)) :
    tournamentOpponentStage i twokm1 k r2 = r2 := by
  unfold tournamentOpponentStage
  rw [if_neg h1, if_neg h2]

/-- With one participant the tournament has a single round slot. -/
theorem tournament_size_one : ck_barrier_tournament_size 1 = 1 := by decide

/-- Rounds `k >= 1` exist only for at most `2^31` participants. -/
theorem tournament_nthr_le_of_round (nthr k : Nat) (h32 : nthr < 2 ^ 32)
    (h0 : 0 < nthr) (hk1 : 1 ≤ k) (hk : k < ck_barrier_tournament_size nthr) :
    nthr ≤ 2 ^ 31 := by
  by_contra hgt
  rw [tournament_size_hi nthr (by omega) h32] at hk
  omega

/-- Rounds `k >= 1` exist only for at least 2 participants. -/
theorem tournament_two_le_of_round (nthr k : Nat) (h0 : 0 < nthr) (hk1 : 1 ≤ k)
    (hk : k < ck_barrier_tournament_size nthr) : 2 ≤ nthr := by
  by_contra hlt
  have h1 : nthr = 1 := by omega
  rw [h1, tournament_size_one] at hk
  omega

/-- In any round `k >= 1` that the init loop visits, `2^(k-1) < nthr`. -/
theorem tournament_twokm1_lt (nthr k : Nat) (h32 : nthr < 2 ^ 32) (h0 : 0 < nthr)
    (hk1 : 1 ≤ k) (hk : k < ck_barrier_tournament_size nthr) : 2 ^ (k - 1) < nthr := by
  have hn31 : nthr ≤ 2 ^ 31 := tournament_nthr_le_of_round nthr k h32 h0 hk1 hk
  have h2n : 2 ≤ nthr := tournament_two_le_of_round nthr k h0 hk1 hk
  rw [tournament_size_eq nthr (by omega) hn31] at hk
  have hcpos : 0 < Nat.clog 2 nthr := Nat.clog_pos (by omega) h2n
  have hmono : (2 : Nat) ^ (k - 1) ≤ 2 ^ (Nat.clog 2 nthr - 1) :=
    Nat.pow_le_pow_right (by omega) (by omega)
  have hlt : (2 : Nat) ^ (Nat.clog 2 nthr - 1) < nthr := by
    by_contra hge
    have hle : nthr ≤ 2 ^ (Nat.clog 2 nthr - 1) := by omega
    have := (@Nat.le_pow_iff_clog_le 2 (by omega) nthr (Nat.clog 2 nthr - 1)).mp hle
    omega
  omega

/-- C3: after `ck_barrier_tournament_round_init(rounds, N)` with N >= 1,
for every thread i < N and every round 1 <= k < size(N), with
twok = 2^k and twokm1 = 2^(k-1): if i mod twok = 0 the role is WINNER
when i + twokm1 < N and twok < N, and BYE when i + twokm1 >= N; if
i mod twok = twokm1 the role is LOSER and the opponent is
rounds[i - twokm1][k].flag; an entry whose (final) role is WINNER or
CHAMPION has opponent rounds[i + twokm1][k].flag; and every flag the
function writes (all rounds k < size(N), round 0 included) is 0. -/
theorem tournament_round_init_spec (nthr : Nat) (t : Nat × Nat → CkTournamentRound)
    (i k : Nat) (h32 : nthr < 2 ^ 32) (hi : i < nthr)
    (hk1 : 1 ≤ k) (hk : k < ck_barrier_tournament_size nthr) :
    (i % 2 ^ k = 0 →
       (i + 2 ^ (k - 1) < nthr ∧ 2 ^ k < nthr →
          (ck_barrier_tournament_round_init nthr t (i, k)).role = CkRole.WINNER) ∧
       (nthr ≤ i + 2 ^ (k - 1) →
          (ck_barrier_tournament_round_init nthr t (i, k)).role = CkRole.BYE)) ∧
    (i % 2 ^ k = 2 ^ (k - 1) →
       (ck_barrier_tournament_round_init nthr t (i, k)).role = CkRole.LOSER ∧
       (ck_barrier_tournament_round_init nthr t (i, k)).opponent = (i - 2 ^ (k - 1), k)) ∧
    ((ck_barrier_tournament_round_init nthr t (i, k)).role = CkRole.WINNER ∨
     (ck_barrier_tournament_round_init nthr t (i, k)).role = CkRole.CHAMPION →
       (ck_barrier_tournament_round_init nthr t (i, k)).opponent = (i + 2 ^ (k - 1), k)) ∧
    (∀ kf, kf < ck_barrier_tournament_size nthr →
       (ck_barrier_tournament_round_init nthr t (i, kf)).flag = 0) := by
  have h0 : 0 < nthr := by omega
  have htm1 : 2 ^ (k - 1) < nthr := tournament_twokm1_lt nthr k h32 h0 hk1 hk
  have hn31 : nthr ≤ 2 ^ 31 := tournament_nthr_le_of_round nthr k h32 h0 hk1 hk
  have hkc : k < Nat.clog 2 nthr + 1 := by
    rw [tournament_size_eq nthr (by omega) hn31] at hk
    exact hk
  have hclog31 : Nat.clog 2 nthr ≤ 31 := by
    apply (@Nat.le_pow_iff_clog_le 2 (by omega) nthr 31).mp
    exact hn31
  have hread : ck_barrier_tournament_round_init nthr t (i, k) =
      ck_barrier_tournament_round_step nthr i k (t (i, k)) := by
    unfold ck_barrier_tournament_round_init
    rw [tableInit_read]
    simp [hi, hk]
  obtain ⟨kp, rfl⟩ : ∃ kp, k = kp + 1 := ⟨k - 1, by omega⟩
  simp only [Nat.add_sub_cancel] at htm1 ⊢
  have hkp30 : kp ≤ 30 := by omega
  have htk32 : (2 : Nat) ^ kp < 2 ^ 32 :=
    Nat.lt_of_le_of_lt (Nat.pow_le_pow_right (by omega) hkp30) (by norm_num)
  have hmask : i &&& (2 ^ (kp + 1) - 1) = i % 2 ^ (kp + 1) :=
    Nat.and_pow_two_sub_one_eq_mod i (kp + 1)
  have hpos : (0 : Nat) < 2 ^ kp := Nat.pos_pow_of_pos kp (by omega)
  have hstep : ck_barrier_tournament_round_step nthr i (kp + 1) (t (i, kp + 1)) =
      tournamentOpponentStage i (2 ^ kp) (kp + 1)
        (tournamentRoleStage2 nthr i (2 ^ (kp + 1)) (2 ^ kp)
          (tournamentRoleStage1 nthr i (2 ^ (kp + 1)) (2 ^ kp)
            { t (i, kp + 1) with flag := 0 })) := rfl
  refine ⟨?_, ?_, ?_, ?_⟩
  · intro him
    constructor
    · intro hA
      have hs1 : tournamentRoleStage1 nthr i (2 ^ (kp + 1)) (2 ^ kp)
          { t (i, kp + 1) with flag := 0 } =
          { t (i, kp + 1) with flag := 0, role := CkRole.WINNER } := by
        unfold tournamentRoleStage1
        rw [hmask, if_pos him, if_pos hA]
      have hs2 : tournamentRoleStage2 nthr i (2 ^ (kp + 1)) (2 ^ kp)
          { t (i, kp + 1) with flag := 0, role := CkRole.WINNER } =
          { t (i, kp + 1) with flag := 0, role := CkRole.WINNER } := by
        unfold tournamentRoleStage2
        rw [hmask, if_neg (by rw [him]; omega), if_neg (by rintro ⟨hz, hc⟩; omega)]
      rw [hread, hstep, hs1, hs2, opponentStage_role]
    · intro hB
      have hs1 : tournamentRoleStage1 nthr i (2 ^ (kp + 1)) (2 ^ kp)
          { t (i, kp + 1) with flag := 0 } =
          { t (i, kp + 1) with flag := 0, role := CkRole.BYE } := by
        unfold tournamentRoleStage1
        rw [hmask, if_pos him, if_neg (by rintro ⟨hc, hd⟩; omega), if_pos hB]
      have hs2 : tournamentRoleStage2 nthr i (2 ^ (kp + 1)) (2 ^ kp)
          { t (i, kp + 1) with flag := 0, role := CkRole.BYE } =
          { t (i, kp + 1) with flag := 0, role := CkRole.BYE } := by
        unfold tournamentRoleStage2
        rw [hmask, if_neg (by rw [him]; omega), if_neg (by rintro ⟨hz, hc⟩; rw [hz] at hB; omega)]
      rw [hread, hstep, hs1, hs2, opponentStage_role]
  · intro him2
    have hs1 : tournamentRoleStage1 nthr i (2 ^ (kp + 1)) (2 ^ kp)
        { t (i, kp + 1) with flag := 0 } = { t (i, kp + 1) with flag := 0 } := by
      unfold tournamentRoleStage1
      rw [hmask, if_neg (by rw [him2]; omega)]
    have hs2 : tournamentRoleStage2 nthr i (2 ^ (kp + 1)) (2 ^ kp)
        { t (i, kp + 1) with flag := 0 } =
        { t (i, kp + 1) with flag := 0, role := CkRole.LOSER } := by
      unfold tournamentRoleStage2
      rw [hmask, if_pos him2]
    have hge : 2 ^ kp ≤ i := by
      have hle : i % 2 ^ (kp + 1) ≤ i := Nat.mod_le i (2 ^ (kp + 1))
      omega
    constructor
    · rw [hread, hstep, hs1, hs2, opponentStage_role]
    · rw [hread, hstep, hs1, hs2, opponentStage_opp_loser _ _ _ _ rfl,
        usub32_eq i (2 ^ kp) hge htk32 (by omega)]
  · intro hwc
    rw [hread, hstep] at hwc ⊢
    rw [opponentStage_role] at hwc
    exact opponentStage_opp_wc _ _ _ _ hwc
  · intro kf hkf
    have hreadf : ck_barrier_tournament_round_init nthr t (i, kf) =
        ck_barrier_tournament_round_step nthr i kf (t (i, kf)) := by
      unfold ck_barrier_tournament_round_init
      rw [tableInit_read]
      simp [hi, hkf]
    rw [hreadf]
    cases kf with
    | zero => rfl
    | succ kq =>
      show (tournamentOpponentStage i (2 ^ kq) (kq + 1)
        (tournamentRoleStage2 nthr i (2 ^ (kq + 1)) (2 ^ kq)
          (tournamentRoleStage1 nthr i (2 ^ (kq + 1)) (2 ^ kq)
            { t (i, kq + 1) with flag := 0 }))).flag = 0
      rw [opponentStage_flag, roleStage2_flag, roleStage1_flag]

theorem tournament_round_init_spec_witness :
    (5 : Nat) < 2 ^ 32 ∧ (1 : Nat) < 5 ∧ (1 : Nat) ≤ 1 ∧
    1 < ck_barrier_tournament_size 5 ∧
    ((1 : Nat) % 2 ^ 1 = 2 ^ (1 - 1) →
       (ck_barrier_tournament_round_init 5 ttour0 (1, 1)).role = CkRole.LOSER ∧
       (ck_barrier_tournament_round_init 5 ttour0 (1, 1)).opponent = (1 - 2 ^ (1 - 1), 1)) :=
  ⟨by norm_num, by norm_num, le_refl 1, by decide,
    (tournament_round_init_spec 5 ttour0 1 1 (by norm_num) (by norm_num) (le_refl 1)
      (by decide)).2.1⟩

/-- C4 counterexample: at N = 2^31 + 1 the `--v` / `++v` wrap of
`ck_barrier_internal_power_2` makes it return 0, so the declared size is
1 and the init writes only round 0; the entry at (0, size - 1) = (0, 0)
is DROPOUT, not CHAMPION, so no champion exists anywhere in a freshly
zeroed table, contradicting the claim for this N >= 2. -/
theorem tournament_champion_cex :
    ck_barrier_tournament_size (2 ^ 31 + 1) = 1 ∧
    (ck_barrier_tournament_round_init (2 ^ 31 + 1) ttour0
        (0, ck_barrier_tournament_size (2 ^ 31 + 1) - 1)).role = CkRole.DROPOUT ∧
    CkRole.DROPOUT ≠ CkRole.CHAMPION := by
  have hsz : ck_barrier_tournament_size (2 ^ 31 + 1) = 1 :=
    tournament_size_hi (2 ^ 31 + 1) (by norm_num) (by norm_num)
  refine ⟨hsz, ?_, by decide⟩
  rw [hsz]
  have hread : ck_barrier_tournament_round_init (2 ^ 31 + 1) ttour0 (0, 1 - 1) =
      ck_barrier_tournament_round_step (2 ^ 31 + 1) 0 0 (ttour0 (0, 0)) := by
    unfold ck_barrier_tournament_round_init
    rw [tableInit_read]
    rw [hsz]
    norm_num
  rw [hread]
  rfl

/-- C4 (amended): for 2 <= N <= 2^31 and an initial table holding no
stale CHAMPION entries, after `ck_barrier_tournament_round_init` every
round-0 entry is DROPOUT and the table holds exactly one CHAMPION: the
entry of thread 0 at the last round size(N) - 1; in particular for N = 5
(size 4) the CHAMPION sits at (0, 3) and thread 4's round-1 role is BYE. -/
theorem tournament_champion_unique (nthr : Nat) (t : Nat × Nat → CkTournamentRound)
    (h2 : 2 ≤ nthr) (h31 : nthr ≤ 2 ^ 31)
    (hnoc : ∀ a b, (t (a, b)).role ≠ CkRole.CHAMPION) :
    (∀ i, i < nthr →
       (ck_barrier_tournament_round_init nthr t (i, 0)).role = CkRole.DROPOUT) ∧
    (∀ i k, i < nthr → k < ck_barrier_tournament_size nthr →
       ((ck_barrier_tournament_round_init nthr t (i, k)).role = CkRole.CHAMPION ↔
        i = 0 ∧ k = ck_barrier_tournament_size nthr - 1)) ∧
    ck_barrier_tournament_size 5 = 4 ∧
    (ck_barrier_tournament_round_init 5 ttour0 (0, 3)).role = CkRole.CHAMPION ∧
    (ck_barrier_tournament_round_init 5 ttour0 (4, 1)).role = CkRole.BYE := by
  have hsize : ck_barrier_tournament_size nthr = Nat.clog 2 nthr + 1 :=
    tournament_size_eq nthr (by omega) h31
  have hcpos : 0 < Nat.clog 2 nthr := Nat.clog_pos (by omega) h2
  have hszpos : 0 < ck_barrier_tournament_size nthr := by rw [hsize]; omega
  refine ⟨?_, ?_, by decide, by decide, by decide⟩
  · intro i hi
    have hread : ck_barrier_tournament_round_init nthr t (i, 0) =
        ck_barrier_tournament_round_step nthr i 0 (t (i, 0)) := by
      unfold ck_barrier_tournament_round_init
      rw [tableInit_read]
      simp [hi, hszpos]
    rw [hread]
    rfl
  · intro i k hi hk
    constructor
    · intro hch
      cases k with
      | zero =>
        have hread : ck_barrier_tournament_round_init nthr t (i, 0) =
            ck_barrier_tournament_round_step nthr i 0 (t (i, 0)) := by
          unfold ck_barrier_tournament_round_init
          rw [tableInit_read]
          simp [hi, hszpos]
        have hstep0 : ck_barrier_tournament_round_step nthr i 0 (t (i, 0)) =
            { t (i, 0) with flag := 0, role := CkRole.DROPOUT } := rfl
        rw [hread, hstep0] at hch
        simp at hch
      | succ kq =>
        have hread : ck_barrier_tournament_round_init nthr t (i, kq + 1) =
            ck_barrier_tournament_round_step nthr i (kq + 1) (t (i, kq + 1)) := by
          unfold ck_barrier_tournament_round_init
          rw [tableInit_read]
          simp [hi, hk]
        have hstep : ck_barrier_tournament_round_step nthr i (kq + 1) (t (i, kq + 1)) =
            tournamentOpponentStage i (2 ^ kq) (kq + 1)
              (tournamentRoleStage2 nthr i (2 ^ (kq + 1)) (2 ^ kq)
                (tournamentRoleStage1 nthr i (2 ^ (kq + 1)) (2 ^ kq)
                  { t (i, kq + 1) with flag := 0 })) := rfl
        rw [hread, hstep, opponentStage_role] at hch
        by_cases hc1 : i &&& (2 ^ (kq + 1) - 1) = 2 ^ kq
        · unfold tournamentRoleStage2 at hch
          rw [if_pos hc1] at hch
          simp at hch
        · by_cases hc2 : i = 0 ∧ nthr ≤ 2 ^ (kq + 1)
          · refine ⟨hc2.1, ?_⟩
            have hclk : Nat.clog 2 nthr ≤ kq + 1 :=
              (@Nat.le_pow_iff_clog_le 2 (by omega) nthr (kq + 1)).mp hc2.2
            rw [hsize] at hk ⊢
            omega
          · unfold tournamentRoleStage2 at hch
            rw [if_neg hc1, if_neg hc2] at hch
            unfold tournamentRoleStage1 at hch
            by_cases hd1 : i &&& (2 ^ (kq + 1) - 1) = 0
            · rw [if_pos hd1] at hch
              by_cases hd2 : i + 2 ^ kq < nthr ∧ 2 ^ (kq + 1) < nthr
              · rw [if_pos hd2] at hch
                simp at hch
              · rw [if_neg hd2] at hch
                by_cases hd3 : nthr ≤ i + 2 ^ kq
                · rw [if_pos hd3] at hch
                  simp at hch
                · rw [if_neg hd3] at hch
                  exact absurd hch (hnoc i (kq + 1))
            · rw [if_neg hd1] at hch
              exact absurd hch (hnoc i (kq + 1))
    · rintro ⟨hi0, hkeq⟩
      subst hi0
      have hk1 : 1 ≤ k := by
        rw [hsize] at hkeq
        omega
      obtain ⟨kq, rfl⟩ : ∃ kq, k = kq + 1 := ⟨k - 1, by omega⟩
      have h0n : (0 : Nat) < nthr := by omega
      have hread : ck_barrier_tournament_round_init nthr t (0, kq + 1) =
          ck_barrier_tournament_round_step nthr 0 (kq + 1) (t (0, kq + 1)) := by
        unfold ck_barrier_tournament_round_init
        rw [tableInit_read]
        simp [hk, h0n]
      have hstep : ck_barrier_tournament_round_step nthr 0 (kq + 1) (t (0, kq + 1)) =
          tournamentOpponentStage 0 (2 ^ kq) (kq + 1)
            (tournamentRoleStage2 nthr 0 (2 ^ (kq + 1)) (2 ^ kq)
              (tournamentRoleStage1 nthr 0 (2 ^ (kq + 1)) (2 ^ kq)
                { t (0, kq + 1) with flag := 0 })) := rfl
      rw [hread, hstep, opponentStage_role]
      have hle : nthr ≤ 2 ^ (kq + 1) := by
        have hkc : kq + 1 = Nat.clog 2 nthr := by
          rw [hsize] at hkeq
          omega
        rw [hkc]
        exact Nat.le_pow_clog (by omega) nthr
      have hpos : (0 : Nat) < 2 ^ kq := Nat.pos_pow_of_pos kq (by omega)
      unfold tournamentRoleStage2
      rw [Nat.zero_and, if_neg (by omega), if_pos ⟨rfl, hle⟩]

theorem tournament_champion_unique_witness :
    (2 : Nat) ≤ 5 ∧ (5 : Nat) ≤ 2 ^ 31 ∧
    (∀ a b, (ttour0 (a, b)).role ≠ CkRole.CHAMPION) ∧
    ((ck_barrier_tournament_round_init 5 ttour0 (0, 3)).role = CkRole.CHAMPION ↔
      (0 : Nat) = 0 ∧ (3 : Nat) = ck_barrier_tournament_size 5 - 1) := by
  have hnoc : ∀ a b, (ttour0 (a, b)).role ≠ CkRole.CHAMPION := by
    intro a b
    simp [ttour0]
  exact ⟨by norm_num, by norm_num, hnoc,
    (tournament_champion_unique 5 ttour0 (by norm_num) (by norm_num) hnoc).2.1 0 3
      (by norm_num) (by decide)⟩

/-- C10 counterexample: at N = 4, thread 3, round 2 we have
3 mod 4 = 3, which is neither 0 nor 2, so the claim says the `opponent`
field is not written; but the trailing `if (rounds[i][k].role == LOSER)`
of the source reads the stale LOSER role and rewrites `opponent` to
`&rounds[1][2].flag`, clobbering the pre-call value (9, 9). -/
theorem tournament_frame_cex :
    (3 : Nat) % 2 ^ 2 ≠ 0 ∧ (3 : Nat) % 2 ^ 2 ≠ 2 ^ (2 - 1) ∧
    2 < ck_barrier_tournament_size 4 ∧
    (ttourStale (3, 2)).opponent = (9, 9) ∧
    (ck_barrier_tournament_round_init 4 ttourStale (3, 2)).opponent = (1, 2) ∧
    ((1, 2) : Nat × Nat) ≠ (9, 9) := by decide

/-- C10 (amended): `ck_barrier_tournament_round_init` writes
`rounds[i][k].flag = 0` for every i < N, k < size(N); for k >= 1 with
i mod 2^k neither 0 nor 2^(k-1) it never writes `rounds[i][k].role`, and
it leaves `rounds[i][k].opponent` unchanged only when the stale pre-call
role at that slot is none of LOSER, WINNER, CHAMPION; a stale LOSER gets
`opponent = &rounds[i - twokm1][k].flag` (unsigned, wrapping subtraction)
and a stale WINNER or CHAMPION gets `opponent = &rounds[i + twokm1][k].flag`. -/
theorem tournament_frame_spec (nthr : Nat) (t : Nat × Nat → CkTournamentRound)
    (i k : Nat) (_h32 : nthr < 2 ^ 32) (hi : i < nthr) (hk1 : 1 ≤ k)
    (hk : k < ck_barrier_tournament_size nthr)
    (hm0 : i % 2 ^ k ≠ 0) (hm1 : i % 2 ^ k ≠ 2 ^ (k - 1)) :
    (ck_barrier_tournament_round_init nthr t (i, k)).role = (t (i, k)).role ∧
    (ck_barrier_tournament_round_init nthr t (i, k)).flag = 0 ∧
    (ck_barrier_tournament_round_init nthr t (i, k)).opponent =
      (if (t (i, k)).role = CkRole.LOSER then (usub32 i (2 ^ (k - 1)), k)
       else if (t (i, k)).role = CkRole.WINNER ∨ (t (i, k)).role = CkRole.CHAMPION then
         (i + 2 ^ (k - 1), k)
       else (t (i, k)).opponent) := by
  have hread : ck_barrier_tournament_round_init nthr t (i, k) =
      ck_barrier_tournament_round_step nthr i k (t (i, k)) := by
    unfold ck_barrier_tournament_round_init
    rw [tableInit_read]
    simp [hi, hk]
  obtain ⟨kp, rfl⟩ : ∃ kp, k = kp + 1 := ⟨k - 1, by omega⟩
  simp only [Nat.add_sub_cancel] at hm1 ⊢
  have hmask : i &&& (2 ^ (kp + 1) - 1) = i % 2 ^ (kp + 1) :=
    Nat.and_pow_two_sub_one_eq_mod i (kp + 1)
  have hstep : ck_barrier_tournament_round_step nthr i (kp + 1) (t (i, kp + 1)) =
      tournamentOpponentStage i (2 ^ kp) (kp + 1)
        (tournamentRoleStage2 nthr i (2 ^ (kp + 1)) (2 ^ kp)
          (tournamentRoleStage1 nthr i (2 ^ (kp + 1)) (2 ^ kp)
            { t (i, kp + 1) with flag := 0 })) := rfl
  have hs1 : tournamentRoleStage1 nthr i (2 ^ (kp + 1)) (2 ^ kp)
      { t (i, kp + 1) with flag := 0 } = { t (i, kp + 1) with flag := 0 } := by
    unfold tournamentRoleStage1
    rw [hmask, if_neg hm0]
  have hs2 : tournamentRoleStage2 nthr i (2 ^ (kp + 1)) (2 ^ kp)
      { t (i, kp + 1) with flag := 0 } = { t (i, kp + 1) with flag := 0 } := by
    unfold tournamentRoleStage2
    rw [hmask, if_neg hm1, if_neg ?hcz]
    case hcz =>
      rintro ⟨hz, hc⟩
      apply hm0
      rw [hz]
      exact Nat.zero_mod _
  rw [hread, hstep, hs1, hs2]
  refine ⟨opponentStage_role _ _ _ _, opponentStage_flag _ _ _ _, ?_⟩
  by_cases hrl : (t (i, kp + 1)).role = CkRole.LOSER
  · rw [if_pos hrl]
    exact opponentStage_opp_loser _ _ _ _ hrl
  · rw [if_neg hrl]
    by_cases hwc : (t (i, kp + 1)).role = CkRole.WINNER ∨
        (t (i, kp + 1)).role = CkRole.CHAMPION
    · rw [if_pos hwc]
      exact opponentStage_opp_wc _ _ _ _ hwc
    · rw [if_neg hwc]
      have hskip := opponentStage_skip i (2 ^ kp) (kp + 1)
        { t (i, kp + 1) with flag := 0 } hrl hwc
      rw [hskip]

theorem tournament_frame_spec_witness :
    (4 : Nat) < 2 ^ 32 ∧ (3 : Nat) < 4 ∧ (1 : Nat) ≤ 2 ∧
    2 < ck_barrier_tournament_size 4 ∧
    (3 : Nat) % 2 ^ 2 ≠ 0 ∧ (3 : Nat) % 2 ^ 2 ≠ 2 ^ (2 - 1) ∧
    ((ck_barrier_tournament_round_init 4 ttourStale (3, 2)).role =
       (ttourStale (3, 2)).role ∧
     (ck_barrier_tournament_round_init 4 ttourStale (3, 2)).flag = 0 ∧
     (ck_barrier_tournament_round_init 4 ttourStale (3, 2)).opponent =
       (if (ttourStale (3, 2)).role = CkRole.LOSER then (usub32 3 (2 ^ (2 - 1)), 2)
        else if (ttourStale (3, 2)).role = CkRole.WINNER ∨
            (ttourStale (3, 2)).role = CkRole.CHAMPION then
          (3 + 2 ^ (2 - 1), 2)
        else (ttourStale (3, 2)).opponent)) :=
  ⟨by norm_num, by norm_num, by norm_num, by decide, by decide, by decide,
    tournament_frame_spec 4 ttourStale 3 2 (by norm_num) (by norm_num) (by norm_num)
      (by decide) (by decide) (by decide)⟩

/-- C2 counterexample: at N = 2^31 and node i = 2^31 - 1, the C unsigned
expression `(i << 1) + 2` wraps to 0, so `ck_barrier_mcs_init` makes
`children[1]` point at node 0's `parentsense`, while the claim (read over
the integers: 2i + 1 + 1 = 2^32 >= N) demands node i's own dummy word. -/
theorem mcs_init_children_wrap_cex :
    2 ^ 31 ≤ 2 * (2 ^ 31 - 1) + 1 + 1 ∧
    (ck_barrier_mcs_init (2 ^ 31) tmcs0 (2 ^ 31 - 1)).children 1 =
      CkMcsPtr.parentsenseW 0 ∧
    CkMcsPtr.parentsenseW 0 ≠ CkMcsPtr.dummyW (2 ^ 31 - 1) := by
  refine ⟨by norm_num, ?_, by decide⟩
  have hread : ck_barrier_mcs_init (2 ^ 31) tmcs0 (2 ^ 31 - 1) =
      ck_barrier_mcs_init_step (2 ^ 31) (2 ^ 31 - 1) (tmcs0 (2 ^ 31 - 1)) := by
    unfold ck_barrier_mcs_init
    rw [arrInit_read]
    norm_num
  rw [hread]
  decide

/-- C2 (amended): after `ck_barrier_mcs_init(barrier, N)` with
1 <= N <= 2^30 (so that none of the C unsigned index expressions wraps),
for every node i < N: `havechild[j]` is all-ones exactly when
(i<<2)+j < N-1 and 0 otherwise, `childnotready[j]` equals `havechild[j]`,
`parent` is node i's own dummy word for i = 0 and
`&barrier[(i-1)>>2].childnotready[(i-1)&3]` otherwise, `children[c]`
points at `barrier[2i+1+c].parentsense` when 2i+1+c < N and at node i's
own dummy word otherwise, and `parentsense = 0`. -/
theorem mcs_init_spec (nthr : Nat) (t : Nat → CkMcsNode) (i : Nat)
    (h1 : 1 ≤ nthr) (h30 : nthr ≤ 2 ^ 30) (hi : i < nthr) :
    (∀ j, j < 4 →
       (ck_barrier_mcs_init nthr t i).havechild j =
         (if 4 * i + j < nthr - 1 then not32 0 else 0) ∧
       (ck_barrier_mcs_init nthr t i).childnotready j =
         (ck_barrier_mcs_init nthr t i).havechild j) ∧
    (ck_barrier_mcs_init nthr t i).parent =
      (if i = 0 then CkMcsPtr.dummyW i
       else CkMcsPtr.childnotreadyW ((i - 1) >>> 2) ((i - 1) &&& 3)) ∧
    (∀ c, c < 2 →
       (ck_barrier_mcs_init nthr t i).children c =
         (if 2 * i + 1 + c < nthr then CkMcsPtr.parentsenseW (2 * i + 1 + c)
          else CkMcsPtr.dummyW i)) ∧
    (ck_barrier_mcs_init nthr t i).parentsense = 0 := by
  have hread : ck_barrier_mcs_init nthr t i =
      ck_barrier_mcs_init_step nthr i (t i) := by
    unfold ck_barrier_mcs_init
    rw [arrInit_read]
    simp [hi]
  have h2i : u32 (i <<< 1) = 2 * i := by
    unfold u32
    rw [Nat.shiftLeft_eq]
    rw [Nat.mod_eq_of_lt (by omega)]
    ring
  have h4i : u32 (i <<< 2) = 4 * i := by
    unfold u32
    rw [Nat.shiftLeft_eq]
    rw [Nat.mod_eq_of_lt (by omega)]
    ring
  have hn1 : u32 (nthr + (2 ^ 32 - 1)) = nthr - 1 := by
    unfold u32
    have he : nthr + (2 ^ 32 - 1) = (nthr - 1) + 2 ^ 32 := by omega
    rw [he, Nat.add_mod_right, Nat.mod_eq_of_lt (by omega)]
  rw [hread]
  have hhc : ∀ j, j < 4 → (ck_barrier_mcs_init_step nthr i (t i)).havechild j =
      (if 4 * i + j < nthr - 1 then not32 0 else 0) := by
    intro j hj
    show (if j < 4 then
            (if u32 (i <<< 2) + j < u32 (nthr + (2 ^ 32 - 1)) then not32 0 else 0)
          else (t i).havechild j) =
        (if 4 * i + j < nthr - 1 then not32 0 else 0)
    rw [if_pos hj, h4i, hn1]
  have hcnr : ∀ j, j < 4 → (ck_barrier_mcs_init_step nthr i (t i)).childnotready j =
      (if 4 * i + j < nthr - 1 then not32 0 else 0) := by
    intro j hj
    show (if j < 4 then
            (if j < 4 then
               (if u32 (i <<< 2) + j < u32 (nthr + (2 ^ 32 - 1)) then not32 0 else 0)
             else (t i).havechild j)
          else (t i).childnotready j) =
        (if 4 * i + j < nthr - 1 then not32 0 else 0)
    rw [if_pos hj, if_pos hj, h4i, hn1]
  refine ⟨?_, rfl, ?_, rfl⟩
  · intro j hj
    exact ⟨hhc j hj, by rw [hcnr j hj, hhc j hj]⟩
  · intro c hc
    have hc01 : c = 0 ∨ c = 1 := by omega
    rcases hc01 with hc0 | hc1
    · subst hc0
      show (if nthr ≤ u32 (i <<< 1) + 1 then CkMcsPtr.dummyW i
            else CkMcsPtr.parentsenseW (u32 (i <<< 1) + 1)) =
          (if 2 * i + 1 + 0 < nthr then CkMcsPtr.parentsenseW (2 * i + 1 + 0)
           else CkMcsPtr.dummyW i)
      rw [h2i]
      by_cases hlt : 2 * i + 1 + 0 < nthr
      · rw [if_neg (by omega), if_pos hlt]
      · rw [if_pos (by omega), if_neg hlt]
    · subst hc1
      have h22 : u32 (u32 (i <<< 1) + 2) = 2 * i + 2 := by
        rw [h2i]
        unfold u32
        rw [Nat.mod_eq_of_lt (by omega)]
      show (if nthr ≤ u32 (u32 (i <<< 1) + 2) then CkMcsPtr.dummyW i
            else CkMcsPtr.parentsenseW (u32 (u32 (i <<< 1) + 2))) =
          (if 2 * i + 1 + 1 < nthr then CkMcsPtr.parentsenseW (2 * i + 1 + 1)
           else CkMcsPtr.dummyW i)
      rw [h22]
      by_cases hlt : 2 * i + 1 + 1 < nthr
      · rw [if_neg (by omega), if_pos hlt]
      · rw [if_pos (by omega), if_neg hlt]

theorem mcs_init_spec_witness :
    (1 : Nat) ≤ 7 ∧ (7 : Nat) ≤ 2 ^ 30 ∧ (2 : Nat) < 7 ∧
    ((ck_barrier_mcs_init 7 tmcs0 2).parent =
       (if (2 : Nat) = 0 then CkMcsPtr.dummyW 2
        else CkMcsPtr.childnotreadyW ((2 - 1) >>> 2) ((2 - 1) &&& 3))) :=
  ⟨by norm_num, by norm_num, by norm_num,
    (mcs_init_spec 7 tmcs0 2 (by norm_num) (by norm_num) (by norm_num)).2.1⟩

/-- C8 counterexample: after `ck_barrier_mcs_init(barrier, 7)` node 0's
`havechild[3]` is all-ones (child 4 = (0<<2)+3+1 exists since 3 < 6), not
0 as the claim states. -/
theorem mcs_havechild_n7_cex :
    (ck_barrier_mcs_init 7 tmcs0 0).havechild 3 = not32 0 ∧ not32 0 ≠ 0 := by
  refine ⟨?_, by decide⟩
  have hread : ck_barrier_mcs_init 7 tmcs0 0 =
      ck_barrier_mcs_init_step 7 0 (tmcs0 0) := by
    unfold ck_barrier_mcs_init
    rw [arrInit_read]
    norm_num
  rw [hread]
  decide

/-- C8 (amended): after `ck_barrier_mcs_init(barrier, 7)` node 0's
`havechild` array is {~0, ~0, ~0, ~0}: all four children 1, 2, 3, 4
exist, since (0<<2)+j < 6 for every j in 0..3. -/
theorem mcs_havechild_n7_spec (t : Nat → CkMcsNode) :
    (ck_barrier_mcs_init 7 t 0).havechild 0 = not32 0 ∧
    (ck_barrier_mcs_init 7 t 0).havechild 1 = not32 0 ∧
    (ck_barrier_mcs_init 7 t 0).havechild 2 = not32 0 ∧
    (ck_barrier_mcs_init 7 t 0).havechild 3 = not32 0 := by
  have hread : ck_barrier_mcs_init 7 t 0 = ck_barrier_mcs_init_step 7 0 (t 0) := by
    unfold ck_barrier_mcs_init
    rw [arrInit_read]
    norm_num
  rw [hread]
  exact ⟨rfl, rfl, rfl, rfl⟩

/-- C7 counterexample: after the three insertions the first inserted
child group (group 1) has k = 3, not k = 2 as the claim states - the
third group was attached as its left child, which incremented its k. -/
theorem combining_first_child_k_cex :
    (combScenarioArena 1).k = 3 ∧ (combScenarioArena 1).lchild = some 3 ∧
    (3 : Nat) ≠ 2 := by decide

/-- C7 (amended): starting from a seed root with k = 0, after three
`ck_barrier_combining_group_init` calls with nthr = 2 each: the seed has
k = 2 with the first two inserted groups as its two children (level-order
insertion increments the parent's k once per attached child); the first
inserted child group ends with k = 3 (its registered 2 plus one for the
third group attached below it) and the second inserted child group with
k = 2. -/
theorem combining_scenario_spec :
    (combScenarioArena 0).k = 2 ∧
    (combScenarioArena 0).lchild = some 1 ∧
    (combScenarioArena 0).rchild = some 2 ∧
    (combScenarioArena 1).parent = some 0 ∧
    (combScenarioArena 2).parent = some 0 ∧
    (combScenarioArena 1).k = 3 ∧
    (combScenarioArena 2).k = 2 ∧
    (combScenarioArena 3).parent = some 1 ∧
    (combScenarioArena 3).k = 2 := by decide

/-- C9: with each barrier set up for one participant, the single thread's
wait completes at once on the last-arrival path for the centralized,
combining, dissemination and MCS barriers; but the tournament wait
unconditionally reads `rounds[vpid][1]`, which lies outside the
`ck_barrier_tournament_size(1) = 1` round slots the size query declares
per thread, so its first round read is already out of bounds and the
instrumented wait fails instead of returning. -/
theorem n1_single_thread_wait :
    ck_barrier_centralized ck_barrier_centralized_init ck_barrier_centralized_state_init 1 =
      some ({ value := 0, sense := not32 0 }, { sense := not32 0 }) ∧
    (ck_barrier_combining 8 combN1Arena 1 { sense := 0 }).isSome = true ∧
    ck_barrier_dissemination 1 (ck_barrier_dissemination_init 1 tdis0)
        (ck_barrier_dissemination_state_init 0) =
      some (ck_barrier_dissemination_init 1 tdis0,
            { parity := 1, sense := not32 0, tid := 0 }) ∧
    (ck_barrier_mcs (ck_barrier_mcs_init 1 tmcs0) (ck_barrier_mcs_state_init 0)).isSome =
      true ∧
    ck_barrier_tournament_size 1 ≤ 1 ∧
    tournamentRead (ck_barrier_tournament_size 1)
      (ck_barrier_tournament_round_init 1 ttour0) 0 1 = none ∧
    ck_barrier_tournament 8 (ck_barrier_tournament_size 1)
      (ck_barrier_tournament_round_init 1 ttour0)
      (ck_barrier_tournament_state_init 0) = none := by
  refine ⟨rfl, by decide, rfl, by decide, by decide, ?_, ?_⟩
  · rfl
  · rfl
